import Mathlib

/-!
Verification of the DockerHub top-images crawler (`dockerhub_top_images.py`).

The extraction pipeline is shallowly embedded: JSON payloads become the
inductive `Hub.JVal` (Python's dynamic values restricted to the shapes JSON
produces, with numbers modelled as integers), Python exceptions become
`Except String`, and the rendered-markup query primitive (BeautifulSoup,
an external collaborator per the design) is abstracted to the list of
anchor elements it yields, each carrying its address attribute and its
flattened visible text.
-/

namespace Hub

/-- Dynamic values: JSON null / bool / number (integer) / string / array /
object. Objects keep insertion order, as Python dicts do. -/
inductive JVal where
  | null : JVal
  | bool : Bool → JVal
  | int : Int → JVal
  | str : String → JVal
  | list : List JVal → JVal
  | obj : List (String × JVal) → JVal

/-- Python truthiness for the embedded values: `None`, `False`, `0`, `""`,
`[]` and the empty dict are falsy, everything else truthy. -/
def truthy : JVal → Bool
  | .null => false
  | .bool b => b
  | .int n => n != 0
  | .str s => !s.isEmpty
  | .list xs => !xs.isEmpty
  | .obj kvs => !kvs.isEmpty

/-- Python `d.get(k)`: the stored value, or `None` when the key is absent. -/
def objGet (kvs : List (String × JVal)) (k : String) : JVal :=
  match kvs.find? (fun p => p.1 == k) with
  | some p => p.2
  | none => .null

/-- Python `a or b`. -/
def pyOr (a b : JVal) : JVal := if truthy a then a else b

/-- Character for a decimal digit value. -/
def digitChar (n : Nat) : Char := Char.ofNat (48 + n)

/-- Decimal digits of a natural number, most significant first; fuel-driven
so the definition is structurally recursive (fuel `n + 1` always suffices). -/
def natDigitsAux : Nat → Nat → List Char → List Char
  | 0, _, acc => acc
  | _ + 1, 0, acc => acc
  | fuel + 1, n, acc => natDigitsAux fuel (n / 10) (digitChar (n % 10) :: acc)

/-- Decimal digits of a natural number, most significant first. -/
def natDigits (n : Nat) : List Char :=
  if n = 0 then ['0'] else natDigitsAux (n + 1) n []

/-- Python `str` of an integer. -/
def intStr (i : Int) : String :=
  if i < 0 then "-" ++ String.mk (natDigits i.natAbs) else String.mk (natDigits i.natAbs)

/-- Insert a comma after every three characters, input and output both least
significant digit first; fuel-driven for structural recursion. -/
def group3 : Nat → List Char → List Char
  | 0, ds => ds
  | fuel + 1, ds =>
    if ds.length ≤ 3 then ds
    else ds.take 3 ++ [','] ++ group3 fuel (ds.drop 3)

/-- Python `f"{n:,}"` for a nonnegative value: digit-grouping with commas. -/
def commaGroupNat (n : Nat) : String :=
  String.mk (group3 (natDigits n).length (natDigits n).reverse).reverse

/-- Python `f"{n:,}"` on an int: digit-grouped rendering, sign first. -/
def commaGroupInt (i : Int) : String :=
  if i < 0 then "-" ++ commaGroupNat i.natAbs else commaGroupNat i.natAbs

mutual

/-- Python `repr` of an embedded value (string quoting simplified to plain
single quotes, without escape processing — no claim depends on it). -/
def pyRepr : JVal → String
  | .null => "None"
  | .bool true => "True"
  | .bool false => "False"
  | .int n => intStr n
  | .str s => "\x27" ++ s ++ "\x27"
  | .list xs => "[" ++ pyReprList xs ++ "]"
  | .obj kvs => "\x7b" ++ pyReprObj kvs ++ "\x7d"

/-- Comma-separated `repr`s of the elements of a Python list. -/
def pyReprList : List JVal → String
  | [] => ""
  | [x] => pyRepr x
  | x :: xs => pyRepr x ++ ", " ++ pyReprList xs

/-- Comma-separated `key: value` `repr`s of the items of a Python dict. -/
def pyReprObj : List (String × JVal) → String
  | [] => ""
  | [(k, v)] => "\x27" ++ k ++ "\x27: " ++ pyRepr v
  | (k, v) :: kvs => "\x27" ++ k ++ "\x27: " ++ pyRepr v ++ ", " ++ pyReprObj kvs

end

/-- Python `str()` of an embedded value: a string is returned as itself,
anything else via `repr`-style rendering. -/
def pyStr : JVal → String
  | .str s => s
  | v => pyRepr v

/-- ASCII whitespace accepted by Python's `int()` and matched by regex `\s`
(unicode whitespace beyond ASCII is not modelled). -/
def isPySpace (c : Char) : Bool :=
  c = ' ' ∨ c = '\t' ∨ c = '\n' ∨ c = '\r' ∨ c = '\x0b' ∨ c = '\x0c'

/-- Value of a list of decimal digit characters, most significant first. -/
def natOfDigits (ds : List Char) : Nat :=
  ds.foldl (fun a c => a * 10 + (c.toNat - 48)) 0

/-- Python `int(s)` on a decimal string, sign-and-digits part: an optional
single sign, then at least one digit; anything else raises, which is
modelled as `none` (underscore digit-grouping is not modelled — the source
only ever feeds comma-stripped count strings through this). -/
def pyIntParseCore : List Char → Option Int
  | '+' :: ds =>
    if ds ≠ [] ∧ ds.all Char.isDigit then some (natOfDigits ds) else none
  | '-' :: ds =>
    if ds ≠ [] ∧ ds.all Char.isDigit then some (-(natOfDigits ds : Int)) else none
  | ds =>
    if ds ≠ [] ∧ ds.all Char.isDigit then some (natOfDigits ds) else none

/-- Python `int(s)` applied to the whitespace-stripped character list. -/
def pyIntParse (s : String) : Option Int :=
  pyIntParseCore (((s.toList.dropWhile isPySpace).reverse.dropWhile isPySpace).reverse)

/-- Python `s.replace(",", "")`: remove every comma. -/
def stripCommas (s : String) : String :=
  String.mk (s.toList.filter (fun c => c ≠ ','))

/-- The canonical record (`RepoRow` in the source): one repository listing. -/
structure RepoRow where
  name : String
  owner : String
  pulls : String
  stars : Int
  last_updated : String
  url : String
deriving DecidableEq, Repr

instance {ε α : Type} [DecidableEq ε] [DecidableEq α] : DecidableEq (Except ε α) :=
  fun a b =>
    match a, b with
    | .ok x, .ok y => if h : x = y then .isTrue (by rw [h]) else .isFalse (by simp [h])
    | .error x, .error y =>
      if h : x = y then .isTrue (by rw [h]) else .isFalse (by simp [h])
    | .ok _, .error _ => .isFalse (by simp)
    | .error _, .ok _ => .isFalse (by simp)

/-- Python `s.strip("/")`: remove leading and trailing slashes. -/
def stripSlashes (s : String) : String :=
  String.mk (((s.toList.dropWhile (fun c => c = '/')).reverse.dropWhile
    (fun c => c = '/')).reverse)

/-- Python `s.split("/", 1)` for a string known to contain a slash:
the part before the first slash and everything after it. -/
def splitOnceSlash (s : String) : String × String :=
  let cs := s.toList
  let pre := cs.takeWhile (fun c => c ≠ '/')
  (String.mk pre, String.mk (cs.drop (pre.length + 1)))

/-- Python `(v or "").strip("/")` on a dynamic value: falsy values collapse
to the empty string, a truthy non-string raises `AttributeError`. -/
def pyStripOr (v : JVal) : Except String String :=
  if truthy v then
    match v with
    | .str s => .ok (stripSlashes s)
    | _ => .error "AttributeError"
  else .ok ""

/-- `split_owner_repo` from the source: strip slashes from both arguments;
if the name still contains a slash, split once at the first slash (the
namespace argument is then unused), otherwise return the pair unchanged. -/
def split_owner_repo (ns name : JVal) : Except String (String × String) :=
  match pyStripOr ns with
  | .error e => .error e
  | .ok nss =>
    match pyStripOr name with
    | .error e => .error e
    | .ok names =>
      if '/' ∈ names.toList then .ok (splitOnceSlash names)
      else .ok (nss, names)

/-- Owner resolution chain of the structured extractor:
`it.get("namespace") or it.get("publisher") or it.get("orgname") or ""`. -/
def nsOf (kvs : List (String × JVal)) : JVal :=
  pyOr (pyOr (pyOr (objGet kvs "namespace") (objGet kvs "publisher"))
    (objGet kvs "orgname")) (.str "")

/-- Base-name resolution chain:
`it.get("name") or it.get("slug") or it.get("repo_name") or it.get("display_name") or ""`. -/
def baseNameOf (kvs : List (String × JVal)) : JVal :=
  pyOr (pyOr (pyOr (pyOr (objGet kvs "name") (objGet kvs "slug"))
    (objGet kvs "repo_name")) (objGet kvs "display_name")) (.str "")

/-- Pulls resolution chain:
`it.get("pulls") or it.get("pull_count_str") or it.get("pull_count") or ""`. -/
def pullsValOf (kvs : List (String × JVal)) : JVal :=
  pyOr (pyOr (pyOr (objGet kvs "pulls") (objGet kvs "pull_count_str"))
    (objGet kvs "pull_count")) (.str "")

/-- The pulls field: an `isinstance(..., int)` value (which in Python also
covers bools) is rendered with digit-grouping commas, anything else is
passed through `str()`. -/
def pullsOf (kvs : List (String × JVal)) : String :=
  match pullsValOf kvs with
  | .int n => commaGroupInt n
  | .bool b => commaGroupInt (if b then 1 else 0)
  | v => pyStr v

/-- Stars resolution chain: `it.get("star_count") or it.get("stars") or 0`. -/
def starValOf (kvs : List (String × JVal)) : JVal :=
  pyOr (pyOr (objGet kvs "star_count") (objGet kvs "stars")) (.int 0)

/-- The stars field: `int(str(star_val).replace(",", ""))`, collapsed to `0`
when the parse raises. -/
def starsOf (kvs : List (String × JVal)) : Int :=
  (pyIntParse (stripCommas (pyStr (starValOf kvs)))).getD 0

/-- Last-updated chain: `it.get("last_updated") or it.get("updated_at") or ""`. -/
def updatedValOf (kvs : List (String × JVal)) : JVal :=
  pyOr (pyOr (objGet kvs "last_updated") (objGet kvs "updated_at")) (.str "")

/-- The last-updated field: `str(updated)`. -/
def updatedOf (kvs : List (String × JVal)) : String :=
  pyStr (updatedValOf kvs)

/-- Python `s.startswith("/")`. -/
def startsWithSlash (s : String) : Bool :=
  match s.toList with
  | '/' :: _ => true
  | _ => false

/-- The url field. The source line parses as
`link = (it.get("href") or f"/r/{owner}/{repo}") if owner and repo else ""`
(the conditional expression binds looser than `or`), then a leading slash is
rebased onto the service origin. `link.startswith` raises when a truthy
`href` is not a string. -/
def linkOf (kvs : List (String × JVal)) (owner repo : String) : Except String String :=
  if owner ≠ "" ∧ repo ≠ "" then
    match (if truthy (objGet kvs "href") then objGet kvs "href"
      else .str ("/r/" ++ owner ++ "/" ++ repo) : JVal) with
    | .str s => .ok (if startsWithSlash s then "https://hub.docker.com" ++ s else s)
    | _ => .error "AttributeError"
  else .ok ""

/-- Processing of one candidate entry: a non-dict entry raises at `it.get`;
owner and name are resolved and split; a record is emitted only when both
are non-empty, otherwise the entry is dropped. -/
def entryRow (it : JVal) : Except String (Option RepoRow) :=
  match it with
  | .obj kvs =>
    match split_owner_repo (nsOf kvs) (baseNameOf kvs) with
    | .error e => .error e
    | .ok (owner, repo) =>
      match linkOf kvs owner repo with
      | .error e => .error e
      | .ok link =>
        if owner ≠ "" ∧ repo ≠ "" then
          .ok (some ⟨repo, owner, pullsOf kvs, starsOf kvs, updatedOf kvs, link⟩)
        else .ok none
  | _ => .error "AttributeError"

/-- All candidate entries in order; the first raising entry aborts the whole
parse (the Python exception propagates out of the loop). -/
def processEntries : List JVal → Except String (List RepoRow)
  | [] => .ok []
  | it :: rest =>
    match entryRow it with
    | .error e => .error e
    | .ok none => processEntries rest
    | .ok (some r) =>
      match processEntries rest with
      | .error e => .error e
      | .ok rs => .ok (r :: rs)

/-- The value under a key when it is a list. -/
def keyList (kvs : List (String × JVal)) (k : String) : Option (List JVal) :=
  match objGet kvs k with
  | .list xs => some xs
  | _ => none

/-- Top-level candidate search, in the fixed order
`"summaries", "results", "data", "items"`; the first key holding a list wins
(even when that list is empty). -/
def topFind (kvs : List (String × JVal)) : Option (List JVal) :=
  match keyList kvs "summaries" with
  | some xs => some xs
  | none =>
    match keyList kvs "results" with
    | some xs => some xs
    | none =>
      match keyList kvs "data" with
      | some xs => some xs
      | none => keyList kvs "items"

/-- One-level-deeper candidate search inside a nested object; note the key
list here is only `"summaries", "results", "items"` — `"data"` is absent at
this level in the source. -/
def innerFind (kvs : List (String × JVal)) : Option (List JVal) :=
  match keyList kvs "summaries" with
  | some xs => some xs
  | none =>
    match keyList kvs "results" with
    | some xs => some xs
    | none => keyList kvs "items"

/-- The nested search over the payload's values in insertion order: for each
dict value the first key match is taken (even an empty list, which then just
fails the `if candidates` test and moves on to the next value). -/
def nestedSearch : List (String × JVal) → Option (List JVal)
  | [] => none
  | (_, v) :: rest =>
    match v with
    | .obj kvs2 =>
      match innerFind kvs2 with
      | some xs => if xs.isEmpty then nestedSearch rest else some xs
      | none => nestedSearch rest
    | _ => nestedSearch rest

/-- Candidate selection of `parse_search_json`: top level first; when nothing
(or only an empty list) is found there, one level deeper; an overall miss
yields the empty candidate list. -/
def getCandidates (kvs : List (String × JVal)) : List JVal :=
  match topFind kvs with
  | some xs => if xs.isEmpty then (nestedSearch kvs).getD [] else xs
  | none => (nestedSearch kvs).getD []

/-- `parse_search_json` from the source: candidate selection followed by
per-entry extraction; a non-dict payload raises at `payload.get`. -/
def parse_search_json (payload : JVal) : Except String (List RepoRow) :=
  match payload with
  | .obj kvs => processEntries (getCandidates kvs)
  | _ => .error "AttributeError"

/-- Did the call raise? -/
def isRaise : Except String (List RepoRow) → Bool
  | .error _ => true
  | .ok _ => false

/-- An anchor element as exposed by the external markup-query primitive:
its address attribute and its flattened visible text
(`a.get_text(" ", strip=True)`). `parse_from_dom` only inspects anchors
carrying an address, which is what `soup.find_all("a", href=True)` yields. -/
structure Anchor where
  href : String
  text : String

/-- One `[^/]+` segment: the maximal non-empty slash-free run at the head,
together with the remainder. -/
def parseSeg (cs : List Char) : Option (List Char × List Char) :=
  if (cs.takeWhile (fun c => c ≠ '/')).isEmpty then none
  else some (cs.takeWhile (fun c => c ≠ '/'),
    cs.drop (cs.takeWhile (fun c => c ≠ '/')).length)

/-- Match of `^/r/([^/]+)/([^/]+)/?$` against an address: exactly two
non-empty slash-free path segments after the `/r/` head, separated by a
slash, with an optional trailing slash. -/
def matchRepoHref (href : String) : Option (String × String) :=
  match href.toList with
  | '/' :: 'r' :: '/' :: rest =>
    match parseSeg rest with
    | some (owner, '/' :: rest2) =>
      match parseSeg rest2 with
      | some (repo, tail) =>
        if tail = [] ∨ tail = ['/'] then some (String.mk owner, String.mk repo)
        else none
      | none => none
    | _ => none
  | _ => none

/-- The character class `[0-9A-Za-z+.,]` of the pulls patterns (closed under
case, so `re.I` does not change it). -/
def isPullsClassChar (c : Char) : Bool :=
  c.isAlphanum ∨ c = '+' ∨ c = '.' ∨ c = ','

/-- The character class `[0-9,]` of the stars patterns. -/
def isStarsClassChar (c : Char) : Bool :=
  c.isDigit ∨ c = ','

/-- Case-insensitive literal prefix match (`re.I`); the literal is given in
lowercase. -/
def ciMatch : List Char → List Char → Bool
  | [], _ => true
  | _ :: _, [] => false
  | l :: ls, c :: cs => l = c.toLower ∧ ciMatch ls cs

/-- Anchored attempt of `lit\s*([cls]+)` (the class being disjoint from
whitespace, greediness needs no backtracking): the literal, a whitespace
run, then a non-empty maximal class run as the captured group. -/
def litThenClassAt (lit : List Char) (cls : Char → Bool) (s : List Char) :
    Option (List Char) :=
  if ciMatch lit s then
    if (((s.drop lit.length).dropWhile isPySpace).takeWhile cls).isEmpty then none
    else some (((s.drop lit.length).dropWhile isPySpace).takeWhile cls)
  else none

/-- `re.search` of `lit\s*([cls]+)`: leftmost position whose anchored
attempt succeeds. -/
def searchLitClass (lit : List Char) (cls : Char → Bool) :
    List Char → Option (List Char)
  | [] => none
  | c :: rest =>
    match litThenClassAt lit cls (c :: rest) with
    | some g => some g
    | none => searchLitClass lit cls rest

/-- Anchored attempt of `([cls]+)\s+lit` (class and whitespace disjoint, and
the literal starts with a non-whitespace letter, so the only viable split
takes the maximal class run and the maximal whitespace run). -/
def classThenLitAt (cls : Char → Bool) (lit : List Char) (s : List Char) :
    Option (List Char) :=
  if (s.takeWhile cls).isEmpty then none
  else if ((s.drop (s.takeWhile cls).length).takeWhile isPySpace).isEmpty then none
  else if ciMatch lit ((s.drop (s.takeWhile cls).length).drop
      ((s.drop (s.takeWhile cls).length).takeWhile isPySpace).length) then
    some (s.takeWhile cls)
  else none

/-- `re.search` of `([cls]+)\s+lit`: leftmost position whose anchored
attempt succeeds. -/
def searchClassLit (cls : Char → Bool) (lit : List Char) :
    List Char → Option (List Char)
  | [] => none
  | c :: rest =>
    match classThenLitAt cls lit (c :: rest) with
    | some g => some g
    | none => searchClassLit cls lit rest

/-- Match of `\s*([^\n]+)` at the start of a suffix, with the regex engine's
greedy-then-backtrack behaviour: past the maximal whitespace run the first
character is necessarily not a newline (newlines are whitespace), so the
group is the maximal non-newline run there; when the whole suffix is
whitespace the engine backs up to the last non-newline character. -/
def tailMatch (s : List Char) : Option (List Char) :=
  let w := (s.takeWhile isPySpace).length
  if w < s.length then some ((s.drop w).takeWhile (fun c => c ≠ '\n'))
  else
    match s.reverse.dropWhile (fun c => c = '\n') with
    | [] => none
    | c :: _ => some [c]

/-- `re.search` of `lit\s*([^\n]+)`: leftmost literal occurrence whose tail
yields a group. -/
def searchLitLine (lit : List Char) : List Char → Option (List Char)
  | [] => none
  | c :: rest =>
    match (if ciMatch lit (c :: rest)
      then tailMatch ((c :: rest).drop lit.length) else none) with
    | some g => some g
    | none => searchLitLine lit rest

/-- The pulls text of one anchor:
`_m(r"Pulls\.\s*([0-9A-Za-z+.,]+)") or _m(r"([0-9A-Za-z+.,]+)\s+Pulls") or ""`
(all captured groups are non-empty, so option fallback models `or`). -/
def pullsOfText (t : List Char) : String :=
  match searchLitClass "pulls.".toList isPullsClassChar t with
  | some g => String.mk g
  | none =>
    match searchClassLit isPullsClassChar "pulls".toList t with
    | some g => String.mk g
    | none => ""

/-- The stars text of one anchor:
`_m(r"Stars\.\s*([0-9,]+)") or _m(r"([0-9,]+)\s+Stars") or "0"`. -/
def starsStrOfText (t : List Char) : String :=
  match searchLitClass "stars.".toList isStarsClassChar t with
  | some g => String.mk g
  | none =>
    match searchClassLit isStarsClassChar "stars".toList t with
    | some g => String.mk g
    | none => "0"

/-- The stars value of one anchor: comma-stripped integer parse of the stars
text, collapsed to `0` on failure. -/
def starsOfTextDom (t : List Char) : Int :=
  (pyIntParse (stripCommas (starsStrOfText t))).getD 0

/-- The last-updated text of one anchor:
`_m(r"Last Updated\.\s*([^\n]+)") or _m(r"Updated\s*([^\n]+)") or ""`. -/
def updatedOfText (t : List Char) : String :=
  match searchLitLine "last updated.".toList t with
  | some g => String.mk g
  | none =>
    match searchLitLine "updated".toList t with
    | some g => String.mk g
    | none => ""

/-- One anchor of the markup fallback: anchors whose address misses the
repository-link shape are skipped; matches yield a record with owner and
repo from the two path segments and the origin-rebased address. -/
def anchorRow (a : Anchor) : Option RepoRow :=
  match matchRepoHref a.href with
  | none => none
  | some (owner, repo) =>
    let t := a.text.toList
    some ⟨repo, owner, pullsOfText t, starsOfTextDom t, updatedOfText t,
      "https://hub.docker.com" ++ a.href⟩

/-- `parse_from_dom` from the source, over the anchor elements the external
markup-query primitive extracts from the page. -/
def parse_from_dom (anchors : List Anchor) : List RepoRow :=
  anchors.filterMap anchorRow

/-- Dedup key of a record: the `(owner, name)` pair. -/
def rowKey (r : RepoRow) : String × String := (r.owner, r.name)

/-- The accumulation step of the fetch loop (the `for r in batch` body):
skip keys already seen, otherwise mark seen and append, breaking out as soon
as the accumulation reaches the quota. -/
def dedupStep (n : Nat) :
    List (String × String) → List RepoRow → List RepoRow →
    List (String × String) × List RepoRow
  | seen, out, [] => (seen, out)
  | seen, out, r :: rest =>
    if rowKey r ∈ seen then dedupStep n seen out rest
    else if n ≤ (out ++ [r]).length then (rowKey r :: seen, out ++ [r])
    else dedupStep n (rowKey r :: seen) (out ++ [r]) rest

/-- The page loop of `fetch_sorted`, instrumented with the list of page
numbers actually fetched. The per-page batch (structured capture with markup
fallback, both external to the loop's own logic) is abstracted as a function
from page number to record batch. The fuel argument only serves structural
termination: the loop guard `page_no <= 50` is the binding bound, and every
caller passes fuel 51, which the guard keeps from ever running out. -/
def fetchAuxT (pages : Nat → List RepoRow) (n : Nat) :
    Nat → Nat → List (String × String) → List RepoRow →
    List RepoRow × List Nat
  | 0, _, _, out => (out, [])
  | fuel + 1, page_no, seen, out =>
    if out.length < n ∧ page_no ≤ 50 then
      if (pages page_no).isEmpty then
        ((dedupStep n seen out (pages page_no)).2, [page_no])
      else
        ((fetchAuxT pages n fuel (page_no + 1) (dedupStep n seen out (pages page_no)).1
            (dedupStep n seen out (pages page_no)).2).1,
          page_no :: (fetchAuxT pages n fuel (page_no + 1)
            (dedupStep n seen out (pages page_no)).1
            (dedupStep n seen out (pages page_no)).2).2)
    else (out, [])

/-- `fetch_sorted` from the source (the pure page loop; browser driving is
external): run the page loop from page 1 with empty accumulation and
seen-set, and truncate the result to the quota (`return out[:n]`). -/
def fetch_sorted (pages : Nat → List RepoRow) (n : Nat) : List RepoRow :=
  (fetchAuxT pages n 51 1 [] []).1.take n

/-! Concrete values used across the claim theorems. -/

/-- The single entry of the end-to-end scenario payload. -/
def nginxEntry : JVal :=
  .obj [("namespace", .str "library"), ("name", .str "nginx"),
    ("star_count", .str "20,000"), ("pull_count", .int 1000000000)]

/-- The end-to-end scenario payload fields: `{"results": [nginxEntry]}`. -/
def nginxKvs : List (String × JVal) := [("results", .list [nginxEntry])]

/-- A minimal well-formed entry: namespace `"a"`, name `"b"`. -/
def abEntry : JVal := .obj [("namespace", .str "a"), ("name", .str "b")]

/-- A record with key `("o", "a")`. -/
def rowA : RepoRow := ⟨"a", "o", "", 0, "", ""⟩

/-- A record with key `("o", "b")`. -/
def rowB : RepoRow := ⟨"b", "o", "", 0, "", ""⟩

/-- A page source on which every page yields the same single record. -/
def constPages : Nat → List RepoRow := fun _ => [rowA]

/-! Helper lemmas. -/

/-- `(s or "").strip("/")` on an actual string never raises and strips the
slashes; the falsy case is the empty string, which stripping fixes. -/
theorem pyStripOr_str (s : String) : pyStripOr (.str s) = .ok (stripSlashes s) := by
  by_cases h : s = ""
  · subst h; decide
  · have he : s.isEmpty = false := by
      by_contra hc
      simp only [Bool.not_eq_false] at hc
      exact h ((String.isEmpty_iff s).mp hc)
    simp [pyStripOr, truthy, he]

/-- With a slash in the stripped name, `split_owner_repo` splits there and
the namespace argument is immaterial. -/
theorem split_owner_repo_slash (ns name : String)
    (h : '/' ∈ (stripSlashes name).toList) :
    split_owner_repo (.str ns) (.str name) = .ok (splitOnceSlash (stripSlashes name)) := by
  unfold split_owner_repo
  rw [pyStripOr_str, pyStripOr_str]
  simp only [String.toList] at h
  simp [h]

/-- Without a slash in the stripped name, `split_owner_repo` returns the
stripped pair unchanged. -/
theorem split_owner_repo_no_slash (ns name : String)
    (h : '/' ∉ (stripSlashes name).toList) :
    split_owner_repo (.str ns) (.str name) = .ok (stripSlashes ns, stripSlashes name) := by
  unfold split_owner_repo
  rw [pyStripOr_str, pyStripOr_str]
  simp only [String.toList] at h
  simp [h]

/-- Everything after the first slash is slash-free when the list holds at
most one slash. -/
theorem drop_after_first_slash (cs : List Char) (h : cs.count '/' ≤ 1) :
    '/' ∉ cs.drop ((cs.takeWhile (fun c => c ≠ '/')).length + 1) := by
  induction cs with
  | nil => simp
  | cons c cs ih =>
    rw [List.count_cons] at h
    by_cases hc : c = '/'
    · subst hc
      have h0 : cs.count '/' = 0 := by
        simp only [beq_self_eq_true, if_true] at h
        omega
      rw [List.takeWhile_cons]
      simp [List.count_eq_zero.mp h0]
    · have hcount : cs.count '/' ≤ 1 := by
        by_cases hb : (c == '/') = true
        · exact absurd (by simpa using hb) hc
        · simp only [hb, if_false] at h
          omega
      rw [List.takeWhile_cons]
      have hd : (decide (c ≠ '/')) = true := by simp [hc]
      simp only [hd, if_true, List.length_cons]
      have : cs.drop ((cs.takeWhile (fun c => c ≠ '/')).length + 1) =
          (c :: cs).drop ((cs.takeWhile (fun c => c ≠ '/')).length + 1 + 1) := by
        simp [List.drop_succ_cons]
      rw [← this]
      exact ih hcount

/-- Dissection of a successfully produced entry record: its owner and name
are exactly the owner/name split of the resolved fields, both non-empty, and
its pulls and stars fields are the dedicated resolutions. -/
theorem entryRow_fields (kvs : List (String × JVal)) (r : RepoRow)
    (h : entryRow (.obj kvs) = .ok (some r)) :
    split_owner_repo (nsOf kvs) (baseNameOf kvs) = .ok (r.owner, r.name) ∧
    r.pulls = pullsOf kvs ∧ r.stars = starsOf kvs ∧ r.owner ≠ "" ∧ r.name ≠ "" := by
  unfold entryRow at h
  split at h
  case h_2 hf => exact absurd rfl (hf kvs)
  case h_1 it kvs2 heq =>
    injection heq with hk
    subst hk
    split at h
    case h_1 => exact Except.noConfusion h
    case h_2 p owner repo heq2 =>
      split at h
      case h_1 => exact Except.noConfusion h
      case h_2 q link heq3 =>
        split at h
        case isTrue hc =>
          simp only [Except.ok.injEq, Option.some.injEq] at h
          rw [← h]
          exact ⟨heq2, rfl, rfl, hc.1, hc.2⟩
        case isFalse hc => simp at h

/-- A parsed segment contains no slash (its regex class is `[^/]`). -/
theorem parseSeg_no_slash (cs seg rest : List Char)
    (h : parseSeg cs = some (seg, rest)) : '/' ∉ seg := by
  unfold parseSeg at h
  split at h
  · exact Option.noConfusion h
  · simp only [Option.some.injEq, Prod.mk.injEq] at h
    intro hm
    rw [← h.1] at hm
    have := List.mem_takeWhile_imp hm
    simp at this

/-- The two captured path segments of a repository-shaped address are
slash-free. -/
theorem matchRepoHref_no_slash (href o rep : String)
    (h : matchRepoHref href = some (o, rep)) :
    '/' ∉ o.toList ∧ '/' ∉ rep.toList := by
  unfold matchRepoHref at h
  split at h
  case h_2 => exact Option.noConfusion h
  case h_1 cs rest heq =>
    split at h
    case h_2 => exact Option.noConfusion h
    case h_1 p owner rest2 heq2 =>
      split at h
      case h_2 => exact Option.noConfusion h
      case h_1 q repo tail heq3 =>
        split at h
        case isFalse => exact Option.noConfusion h
        case isTrue =>
          simp only [Option.some.injEq, Prod.mk.injEq] at h
          obtain ⟨ho, hr⟩ := h
          constructor
          · intro hm
            rw [← ho] at hm
            exact parseSeg_no_slash rest owner ('/' :: rest2) heq2 hm
          · intro hm
            rw [← hr] at hm
            exact parseSeg_no_slash rest2 repo tail heq3 hm

/-- Every record the markup fallback produces carries a slash-free name. -/
theorem parse_from_dom_name_no_slash (anchors : List Anchor) (r : RepoRow)
    (h : r ∈ parse_from_dom anchors) : '/' ∉ r.name.toList := by
  unfold parse_from_dom at h
  rw [List.mem_filterMap] at h
  obtain ⟨a, _, ha⟩ := h
  unfold anchorRow at ha
  split at ha
  · exact Option.noConfusion ha
  · rename_i owner repo heq
    simp only [Option.some.injEq] at ha
    rw [← ha]
    exact (matchRepoHref_no_slash a.href owner repo heq).2

/-! Claim theorems. -/

/-- Claim C1: the single-page payload
`{"results": [{"namespace": "library", "name": "nginx", "star_count": "20,000",
"pull_count": 1000000000}]}` yields exactly one record, named `nginx`, owned
by `library`, with pulls `"1,000,000,000"`, stars `20000`, and the url
synthesized from owner and name. -/
theorem c1_single_nginx_record :
    parse_search_json (.obj nginxKvs) =
      .ok [⟨"nginx", "library", "1,000,000,000", 20000, "",
        "https://hub.docker.com/r/library/nginx"⟩] := by
  decide

/-- Claim C9: page markup whose anchors reduce to one anchor with address
`/r/foo/bar` and flattened text `"bar Pulls. 5M+ Stars. 12"` yields one
record with owner `foo`, name `bar`, pulls `"5M+"`, stars `12`, and the
known service origin prepended to the relative address. -/
theorem c9_markup_fallback_record :
    parse_from_dom [⟨"/r/foo/bar", "bar Pulls. 5M+ Stars. 12"⟩] =
      [⟨"bar", "foo", "5M+", 12, "", "https://hub.docker.com/r/foo/bar"⟩] := by
  decide

/-- Claim C4, counterexample: with name `"library/nginx"` and the non-empty
namespace `"other"`, the extractor does not prefer the namespace — the
portion before the separator wins. -/
theorem c4_namespace_not_preferred :
    split_owner_repo (.str "other") (.str "library/nginx") = .ok ("library", "nginx") ∧
    split_owner_repo (.str "other") (.str "library/nginx") ≠ .ok ("other", "nginx") := by
  decide

/-- Claim C4, amended: when the (slash-stripped) name field contains a
separator, `split_owner_repo` splits at the first separator and ignores the
namespace field entirely, whether or not it is present; the namespace field
is used only when the name contains no separator. The claim's two concrete
examples hold. -/
theorem c4_split_amended :
    (∀ ns name : String, '/' ∈ (stripSlashes name).toList →
      split_owner_repo (.str ns) (.str name) = .ok (splitOnceSlash (stripSlashes name))) ∧
    (∀ ns name : String, '/' ∉ (stripSlashes name).toList →
      split_owner_repo (.str ns) (.str name) = .ok (stripSlashes ns, stripSlashes name)) ∧
    split_owner_repo (.str "") (.str "library/nginx") = .ok ("library", "nginx") ∧
    split_owner_repo (.str "library") (.str "nginx") = .ok ("library", "nginx") := by
  refine ⟨split_owner_repo_slash, split_owner_repo_no_slash, by decide, by decide⟩

/-- Claim C4, witness for the amended statement: instantiating the split
rule at namespace `"other"` and name `"library/nginx"`. -/
theorem c4_split_witness :
    split_owner_repo (.str "other") (.str "library/nginx") =
      .ok (splitOnceSlash (stripSlashes "library/nginx")) :=
  c4_split_amended.1 "other" "library/nginx" (by decide)

/-- Claim C5, counterexample: a payload whose only sequence sits under the
key `"data"` inside a nested object yields nothing — the one-level-deeper
search does not use the same candidate keys as the top level (`"data"` is
missing there) — although the same sequence at the top level is found. -/
theorem c5_nested_data_not_found :
    parse_search_json (.obj [("wrap", .obj [("data", .list [abEntry])])]) = .ok [] ∧
    parse_search_json (.obj [("data", .list [abEntry])]) =
      .ok [⟨"b", "a", "", 0, "", "https://hub.docker.com/r/a/b"⟩] := by
  decide

/-- Claim C5, amended: when no candidate key holds a sequence at the top
level, the extractor searches one level deeper, but only for the keys
`"summaries"`, `"results"` and `"items"` — a nested `"data"` sequence is
never found. For the three supported keys, a sequence nested one level down
is processed exactly as a top-level candidate sequence would be. -/
theorem c5_nested_search_amended (xs : List JVal) :
    parse_search_json (.obj [("wrap", .obj [("summaries", .list xs)])]) =
      processEntries xs ∧
    parse_search_json (.obj [("wrap", .obj [("results", .list xs)])]) =
      processEntries xs ∧
    parse_search_json (.obj [("wrap", .obj [("items", .list xs)])]) =
      processEntries xs ∧
    parse_search_json (.obj [("wrap", .obj [("data", .list xs)])]) = .ok [] := by
  cases xs <;> exact ⟨rfl, rfl, rfl, rfl⟩

/-- Claim C8, counterexample: the accumulation step is not idempotent at the
quota boundary — with quota 1 and a two-record batch, the first run stops
after one record, and a second run on the same batch accepts the second
record's key, so the seen-key sets differ. -/
theorem c8_double_step_not_idempotent :
    ("o", "b") ∈ (dedupStep 1 (dedupStep 1 [] [] [rowA, rowB]).1
      (dedupStep 1 [] [] [rowA, rowB]).2 [rowA, rowB]).1 ∧
    ("o", "b") ∉ (dedupStep 1 [] [] [rowA, rowB]).1 := by
  decide

/-- Claim C7, counterexample: with a source that repeats the same record on
every page, the loop returns fewer records than the quota even though no
fetched page ever produced an empty batch — the stop comes from the 50-page
ceiling, not from source exhaustion. -/
theorem c7_short_output_without_exhaustion :
    (fetch_sorted constPages 2).length = 1 ∧
    ((fetchAuxT constPages 2 51 1 [] []).2.map constPages).all
      (fun b => !b.isEmpty) = true := by
  decide

/-- Claim C2, counterexample: a mapping payload whose candidate sequence
holds a non-mapping entry makes `parse_search_json` raise
(`AttributeError` at `it.get`), so it does not return for every mapping. -/
theorem c2_nonmapping_entry_raises :
    isRaise (parse_search_json (.obj [("results", .list [.int 42])])) = true := by
  decide

/-- Claim C3, counterexample: an upstream name field with two separators,
`"a/b/c"`, is split only once, so the produced record's name `"b/c"` still
contains a separator. -/
theorem c3_multi_separator_name_keeps_slash :
    parse_search_json (.obj [("results", .list [.obj [("name", .str "a/b/c")]])]) =
      .ok [⟨"b/c", "a", "", 0, "", "https://hub.docker.com/r/a/b/c"⟩] ∧
    '/' ∈ ("b/c" : String).toList := by
  decide

/-- Claim C6, counterexample: a negative star-count string passes the parse
unchanged, so a produced record can carry stars below zero. -/
theorem c6_negative_stars :
    parse_search_json (.obj [("results",
      .list [.obj [("namespace", .str "a"), ("name", .str "b"),
        ("star_count", .str "-5")]])]) =
      .ok [⟨"b", "a", "", -5, "", "https://hub.docker.com/r/a/b"⟩] ∧
    (⟨"b", "a", "", -5, "", "https://hub.docker.com/r/a/b"⟩ : RepoRow).stars < 0 := by
  decide

/-- Claim C3, amended: records from the markup extractor always carry a
slash-free name; for the structured extractor the record's owner and name
are exactly the owner/name split of the resolved fields, and that split
leaves no slash in the name whenever the (slash-stripped) upstream name
holds at most one separator — with two or more separators the split happens
only at the first one, so the name keeps the rest (see the
counterexample). -/
theorem c3_name_separator_amended :
    (∀ anchors r, r ∈ parse_from_dom anchors → '/' ∉ r.name.toList) ∧
    (∀ kvs r, entryRow (.obj kvs) = .ok (some r) →
      split_owner_repo (nsOf kvs) (baseNameOf kvs) = .ok (r.owner, r.name)) ∧
    (∀ ns name : String, (stripSlashes name).toList.count '/' ≤ 1 →
      ∀ o rep, split_owner_repo (.str ns) (.str name) = .ok (o, rep) →
        '/' ∉ rep.toList) := by
  refine ⟨parse_from_dom_name_no_slash,
    fun kvs r h => (entryRow_fields kvs r h).1, ?_⟩
  intro ns name hcount o rep hsp
  by_cases hc : '/' ∈ (stripSlashes name).toList
  · rw [split_owner_repo_slash ns name hc] at hsp
    simp only [Except.ok.injEq] at hsp
    have h2 : rep = (splitOnceSlash (stripSlashes name)).2 := by rw [hsp]
    rw [h2]
    show '/' ∉ ((splitOnceSlash (stripSlashes name)).2).toList
    unfold splitOnceSlash
    exact drop_after_first_slash (stripSlashes name).toList hcount
  · rw [split_owner_repo_no_slash ns name hc] at hsp
    simp only [Except.ok.injEq, Prod.mk.injEq] at hsp
    rw [← hsp.2]
    exact hc

/-- Claim C3, witness for the amended statement: for the single-separator
name `"library/nginx"` the produced name `"nginx"` is slash-free. -/
theorem c3_name_separator_witness :
    split_owner_repo (.str "library") (.str "library/nginx") = .ok ("library", "nginx") ∧
    '/' ∉ ("nginx" : String).toList :=
  ⟨by decide, c3_name_separator_amended.2.2 "library" "library/nginx" (by decide)
    "library" "nginx" (by decide)⟩

/-- Claim C10: when every pulls-like field (`pulls`, `pull_count_str`,
`pull_count`) is absent or falsy — including a pull count that is literally
the integer 0 — the pulls resolution yields the empty string (not `"0"`),
and so does the pulls field of any record produced from such an entry. -/
theorem c10_falsy_pulls_empty (kvs : List (String × JVal))
    (h1 : truthy (objGet kvs "pulls") = false)
    (h2 : truthy (objGet kvs "pull_count_str") = false)
    (h3 : truthy (objGet kvs "pull_count") = false) :
    pullsOf kvs = "" ∧
    ∀ r : RepoRow, entryRow (.obj kvs) = .ok (some r) → r.pulls = "" := by
  have hv : pullsValOf kvs = .str "" := by
    simp [pullsValOf, pyOr, h1, h2, h3]
  have hp : pullsOf kvs = "" := by
    unfold pullsOf
    rw [hv]
    rfl
  exact ⟨hp, fun r hr => by rw [(entryRow_fields kvs r hr).2.1]; exact hp⟩

/-- Claim C10, witness: an entry whose only pulls-like field is the integer
pull count 0 produces a record with empty pulls. -/
theorem c10_falsy_pulls_witness :
    pullsOf [("namespace", .str "a"), ("name", .str "b"), ("pull_count", .int 0)] = "" ∧
    (⟨"b", "a", "", 0, "", "https://hub.docker.com/r/a/b"⟩ : RepoRow).pulls = "" :=
  ⟨(c10_falsy_pulls_empty [("namespace", .str "a"), ("name", .str "b"),
      ("pull_count", .int 0)] (by decide) (by decide) (by decide)).1,
   (c10_falsy_pulls_empty [("namespace", .str "a"), ("name", .str "b"),
      ("pull_count", .int 0)] (by decide) (by decide) (by decide)).2
    ⟨"b", "a", "", 0, "", "https://hub.docker.com/r/a/b"⟩ (by decide)⟩

/-- Reading back the character list of a packed string. -/
theorem toList_mk (l : List Char) : (String.mk l).toList = l := rfl

/-- A sign-and-digits parse of a minus-free character list never returns a
negative value. -/
theorem pyIntParseCore_nonneg (cs : List Char) (h : '-' ∉ cs) :
    0 ≤ (pyIntParseCore cs).getD 0 := by
  unfold pyIntParseCore
  split
  · split
    · simp
    · simp
  · rename_i ds
    exact absurd (List.mem_cons_self '-' ds) h
  · split
    · simp
    · simp

/-- The whitespace-stripped list parsed by `pyIntParse` only holds
characters of the original string. -/
theorem pyIntParse_chars (s : String) (c : Char)
    (h : c ∈ ((s.toList.dropWhile isPySpace).reverse.dropWhile isPySpace).reverse) :
    c ∈ s.toList := by
  rw [List.mem_reverse] at h
  have h1 := (List.dropWhile_sublist (l := (s.toList.dropWhile isPySpace).reverse)
    (p := isPySpace)).subset h
  rw [List.mem_reverse] at h1
  exact (List.dropWhile_sublist (l := s.toList) (p := isPySpace)).subset h1

/-- Parsing a minus-free string never yields a negative value (default 0
included). -/
theorem pyIntParse_nonneg (s : String) (h : '-' ∉ s.toList) :
    0 ≤ (pyIntParse s).getD 0 := by
  unfold pyIntParse
  exact pyIntParseCore_nonneg _ (fun hm => h (pyIntParse_chars s '-' hm))

/-- Comma removal only keeps characters of the original string. -/
theorem stripCommas_subset (s : String) (c : Char)
    (h : c ∈ (stripCommas s).toList) : c ∈ s.toList := by
  unfold stripCommas at h
  rw [toList_mk] at h
  exact (List.mem_filter.mp h).1

/-- A group captured by an anchored `lit\s*([cls]+)` attempt satisfies the
class predicate throughout. -/
theorem litThenClassAt_all (lit : List Char) (cls : Char → Bool) (s g : List Char)
    (h : litThenClassAt lit cls s = some g) : ∀ c ∈ g, cls c := by
  unfold litThenClassAt at h
  split at h
  · split at h
    · exact Option.noConfusion h
    · simp only [Option.some.injEq] at h
      intro c hc
      rw [← h] at hc
      exact List.mem_takeWhile_imp hc
  · exact Option.noConfusion h

/-- A group captured by an anchored `([cls]+)\s+lit` attempt satisfies the
class predicate throughout. -/
theorem classThenLitAt_all (cls : Char → Bool) (lit : List Char) (s g : List Char)
    (h : classThenLitAt cls lit s = some g) : ∀ c ∈ g, cls c := by
  unfold classThenLitAt at h
  split at h
  · exact Option.noConfusion h
  · split at h
    · exact Option.noConfusion h
    · split at h
      · simp only [Option.some.injEq] at h
        intro c hc
        rw [← h] at hc
        exact List.mem_takeWhile_imp hc
      · exact Option.noConfusion h

/-- A group found by searching `lit\s*([cls]+)` satisfies the class
predicate throughout. -/
theorem searchLitClass_all (lit : List Char) (cls : Char → Bool) (t g : List Char)
    (h : searchLitClass lit cls t = some g) : ∀ c ∈ g, cls c := by
  induction t with
  | nil => exact Option.noConfusion h
  | cons a t ih =>
    unfold searchLitClass at h
    split at h
    · rename_i g2 heq
      simp only [Option.some.injEq] at h
      rw [← h]
      exact litThenClassAt_all lit cls (a :: t) g2 heq
    · exact ih h

/-- A group found by searching `([cls]+)\s+lit` satisfies the class
predicate throughout. -/
theorem searchClassLit_all (cls : Char → Bool) (lit : List Char) (t g : List Char)
    (h : searchClassLit cls lit t = some g) : ∀ c ∈ g, cls c := by
  induction t with
  | nil => exact Option.noConfusion h
  | cons a t ih =>
    unfold searchClassLit at h
    split at h
    · rename_i g2 heq
      simp only [Option.some.injEq] at h
      rw [← h]
      exact classThenLitAt_all cls lit (a :: t) g2 heq
    · exact ih h

/-- The stars text recovered from anchor text never holds a minus sign: it
is either a `[0-9,]` group or the default `"0"`. -/
theorem starsStr_no_minus (t : List Char) :
    ∀ c ∈ (starsStrOfText t).toList, c ≠ '-' := by
  unfold starsStrOfText
  split
  · rename_i g heq
    intro c hc hce
    have := searchLitClass_all _ _ _ _ heq c (by rw [toList_mk] at hc; exact hc)
    rw [hce] at this
    simp [isStarsClassChar] at this
  · split
    · rename_i g heq
      intro c hc hce
      have := searchClassLit_all _ _ _ _ heq c (by rw [toList_mk] at hc; exact hc)
      rw [hce] at this
      simp [isStarsClassChar] at this
    · decide

/-- The stars value recovered from anchor text is never negative. -/
theorem starsOfTextDom_nonneg (t : List Char) : 0 ≤ starsOfTextDom t := by
  unfold starsOfTextDom
  apply pyIntParse_nonneg
  intro hm
  exact starsStr_no_minus t '-' (stripCommas_subset _ _ hm) rfl

/-- Every record the markup fallback produces carries nonnegative stars. -/
theorem parse_from_dom_stars_nonneg (anchors : List Anchor) (r : RepoRow)
    (h : r ∈ parse_from_dom anchors) : 0 ≤ r.stars := by
  unfold parse_from_dom at h
  rw [List.mem_filterMap] at h
  obtain ⟨a, _, ha⟩ := h
  unfold anchorRow at ha
  split at ha
  · exact Option.noConfusion ha
  · simp only [Option.some.injEq] at ha
    rw [← ha]
    exact starsOfTextDom_nonneg _

/-- Claim C6, amended: a produced record's stars field is the integer
parsed from the resolved star-count text with digit-grouping commas
stripped; an unparseable text and an absent field both collapse to 0 and a
parse failure is never propagated. The value is nonnegative whenever that
text holds no minus sign — in particular always on the markup path, whose
star groups come from the class `[0-9,]` — but a negative upstream count
such as `"-5"` passes through below zero (see the counterexample). The
claim's concrete cases hold: `"12,345"` gives 12345, `"abc"` gives 0, an
absent field gives 0. -/
theorem c6_stars_amended :
    (∀ kvs r, entryRow (.obj kvs) = .ok (some r) →
      r.stars = (pyIntParse (stripCommas (pyStr (starValOf kvs)))).getD 0) ∧
    (∀ kvs r, entryRow (.obj kvs) = .ok (some r) →
      '-' ∉ (pyStr (starValOf kvs)).toList → 0 ≤ r.stars) ∧
    (∀ anchors r, r ∈ parse_from_dom anchors → 0 ≤ r.stars) ∧
    starsOf [("star_count", .str "12,345")] = 12345 ∧
    starsOf [("star_count", .str "abc")] = 0 ∧
    starsOf [] = 0 := by
  refine ⟨?_, ?_, parse_from_dom_stars_nonneg, by decide, by decide, by decide⟩
  · intro kvs r h
    exact (entryRow_fields kvs r h).2.2.1
  · intro kvs r h hminus
    rw [(entryRow_fields kvs r h).2.2.1]
    unfold starsOf
    apply pyIntParse_nonneg
    intro hm
    exact hminus (stripCommas_subset _ _ hm)

/-- Claim C6, witness for the amended statement: a concrete entry with
star-count text `"7"` yields a record with stars 7 ≥ 0. -/
theorem c6_stars_witness :
    entryRow (.obj [("namespace", .str "a"), ("name", .str "b"),
      ("star_count", .str "7")]) =
      .ok (some ⟨"b", "a", "", 7, "", "https://hub.docker.com/r/a/b"⟩) ∧
    0 ≤ (⟨"b", "a", "", 7, "", "https://hub.docker.com/r/a/b"⟩ : RepoRow).stars :=
  ⟨by decide, c6_stars_amended.2.1 [("namespace", .str "a"), ("name", .str "b"),
    ("star_count", .str "7")] ⟨"b", "a", "", 7, "", "https://hub.docker.com/r/a/b"⟩
    (by decide) (by decide)⟩

/-- Values the extractor's string handling digests without raising:
strings, and falsy values (which the `or`-chains replace by defaults). -/
def strOrFalsy (v : JVal) : Bool :=
  match v with
  | .str _ => true
  | v => !(truthy v)

/-- An entry is benign when each owner-, name- and url-like field is a
string or falsy; the count-like fields may hold anything. -/
def entryBenign (kvs : List (String × JVal)) : Bool :=
  strOrFalsy (objGet kvs "namespace") && strOrFalsy (objGet kvs "publisher") &&
  strOrFalsy (objGet kvs "orgname") && strOrFalsy (objGet kvs "name") &&
  strOrFalsy (objGet kvs "slug") && strOrFalsy (objGet kvs "repo_name") &&
  strOrFalsy (objGet kvs "display_name") && strOrFalsy (objGet kvs "href")

/-- A benign candidate entry: a mapping with benign fields. -/
def entryBenignV : JVal → Bool
  | .obj kvs => entryBenign kvs
  | _ => false

/-- `or` keeps the string-or-falsy property. -/
theorem pyOr_strOrFalsy (a b : JVal) (ha : strOrFalsy a = true)
    (hb : strOrFalsy b = true) : strOrFalsy (pyOr a b) = true := by
  unfold pyOr
  split
  · exact ha
  · exact hb

/-- A truthy string-or-falsy value is a string. -/
theorem strOrFalsy_elim (v : JVal) (h : strOrFalsy v = true)
    (ht : truthy v = true) : ∃ s, v = .str s := by
  cases v with
  | str s => exact ⟨s, rfl⟩
  | null => exact absurd ht (by decide)
  | bool b => simp only [strOrFalsy] at h; rw [ht] at h; simp at h
  | int n => simp only [strOrFalsy] at h; rw [ht] at h; simp at h
  | list xs => simp only [strOrFalsy] at h; rw [ht] at h; simp at h
  | obj kvs2 => simp only [strOrFalsy] at h; rw [ht] at h; simp at h

/-- `(v or "").strip("/")` cannot raise on a string-or-falsy value. -/
theorem pyStripOr_ok (v : JVal) (h : strOrFalsy v = true) :
    ∃ s, pyStripOr v = .ok s := by
  cases ht : truthy v with
  | false => exact ⟨"", by simp [pyStripOr, ht]⟩
  | true =>
    obtain ⟨s, rfl⟩ := strOrFalsy_elim v h ht
    exact ⟨stripSlashes s, pyStripOr_str s⟩

/-- The owner/name split cannot raise on string-or-falsy inputs. -/
theorem split_ok (a b : JVal) (ha : strOrFalsy a = true)
    (hb : strOrFalsy b = true) : ∃ p, split_owner_repo a b = .ok p := by
  obtain ⟨s1, h1⟩ := pyStripOr_ok a ha
  obtain ⟨s2, h2⟩ := pyStripOr_ok b hb
  have hred : split_owner_repo a b =
      (if '/' ∈ s2.toList then .ok (splitOnceSlash s2) else .ok (s1, s2)) := by
    simp [split_owner_repo, h1, h2]
  rw [hred]
  by_cases hm : '/' ∈ s2.toList
  · rw [if_pos hm]; exact ⟨_, rfl⟩
  · rw [if_neg hm]; exact ⟨_, rfl⟩

/-- The url resolution cannot raise when the href field is a string or
falsy. -/
theorem linkOf_ok (kvs : List (String × JVal)) (owner repo : String)
    (h : strOrFalsy (objGet kvs "href") = true) :
    ∃ s, linkOf kvs owner repo = .ok s := by
  unfold linkOf
  by_cases hc : owner ≠ "" ∧ repo ≠ ""
  · rw [if_pos hc]
    cases ht : truthy (objGet kvs "href") with
    | false => exact ⟨_, rfl⟩
    | true =>
      obtain ⟨s, hs⟩ := strOrFalsy_elim _ h ht
      rw [hs]
      exact ⟨_, rfl⟩
  · rw [if_neg hc]
    exact ⟨"", rfl⟩

/-- Entry processing cannot raise on a benign entry. -/
theorem entryRow_ok (kvs : List (String × JVal)) (h : entryBenign kvs = true) :
    ∃ o, entryRow (.obj kvs) = .ok o := by
  simp only [entryBenign, Bool.and_eq_true] at h
  obtain ⟨⟨⟨⟨⟨⟨⟨h1, h2⟩, h3⟩, h4⟩, h5⟩, h6⟩, h7⟩, h8⟩ := h
  have hstr : strOrFalsy (.str "") = true := rfl
  have hns : strOrFalsy (nsOf kvs) = true :=
    pyOr_strOrFalsy _ _ (pyOr_strOrFalsy _ _ (pyOr_strOrFalsy _ _ h1 h2) h3) hstr
  have hbase : strOrFalsy (baseNameOf kvs) = true :=
    pyOr_strOrFalsy _ _
      (pyOr_strOrFalsy _ _ (pyOr_strOrFalsy _ _ (pyOr_strOrFalsy _ _ h4 h5) h6) h7) hstr
  obtain ⟨⟨owner, repo⟩, hsp⟩ := split_ok _ _ hns hbase
  obtain ⟨link, hlk⟩ := linkOf_ok kvs owner repo h8
  by_cases hc : owner ≠ "" ∧ repo ≠ ""
  · exact ⟨some ⟨repo, owner, pullsOf kvs, starsOf kvs, updatedOf kvs, link⟩,
      by simp [entryRow, hsp, hlk, hc]⟩
  · exact ⟨none, by simp [entryRow, hsp, hlk, hc]⟩

/-- A benign candidate entry is a mapping with benign fields. -/
theorem entryBenignV_obj (it : JVal) (h : entryBenignV it = true) :
    ∃ kvs, it = .obj kvs ∧ entryBenign kvs = true := by
  cases it with
  | obj kvs => exact ⟨kvs, rfl, h⟩
  | null => exact absurd h (by decide)
  | bool b => exact absurd h (by simp [entryBenignV])
  | int n => exact absurd h (by simp [entryBenignV])
  | str s => exact absurd h (by simp [entryBenignV])
  | list xs => exact absurd h (by simp [entryBenignV])

/-- The candidate loop cannot raise when every entry is benign. -/
theorem processEntries_ok (its : List JVal)
    (h : ∀ it ∈ its, entryBenignV it = true) :
    ∃ rows, processEntries its = .ok rows := by
  induction its with
  | nil => exact ⟨[], rfl⟩
  | cons it rest ih =>
    obtain ⟨rows, hrw⟩ := ih (fun x hx => h x (List.mem_cons_of_mem it hx))
    obtain ⟨kvs, rfl, hb⟩ := entryBenignV_obj it (h it (List.mem_cons_self it rest))
    obtain ⟨o, ho⟩ := entryRow_ok kvs hb
    cases o with
    | none => exact ⟨rows, by simp [processEntries, ho, hrw]⟩
    | some r => exact ⟨r :: rows, by simp [processEntries, ho, hrw]⟩

/-- Claim C2, amended: `parse_search_json` returns a record sequence without
raising for every mapping payload whose selected candidate entries are all
mappings whose owner-, name- and url-like fields are strings or falsy; a
candidate entry that is not a mapping — or a truthy non-string in one of
those fields — raises `AttributeError` instead (absorbed one level up by
the response handler's `except`), as the counterexample shows. -/
theorem c2_benign_never_raises (kvs : List (String × JVal))
    (h : ∀ it ∈ getCandidates kvs, entryBenignV it = true) :
    isRaise (parse_search_json (.obj kvs)) = false := by
  obtain ⟨rows, hr⟩ := processEntries_ok (getCandidates kvs) h
  simp [parse_search_json, hr, isRaise]

/-- Claim C2, witness for the amended statement: the end-to-end scenario
payload is benign and parses without raising. -/
theorem c2_benign_witness : isRaise (parse_search_json (.obj nginxKvs)) = false :=
  c2_benign_never_raises nginxKvs (by decide)

/-- From a state already holding the quota the loop fetches no page and
returns the accumulation unchanged. -/
theorem fetchAuxT_at_quota (pages : Nat → List RepoRow) (n fuel page_no : Nat)
    (seen : List (String × String)) (out : List RepoRow) (h : n ≤ out.length) :
    fetchAuxT pages n fuel page_no seen out = (out, []) := by
  cases fuel with
  | zero => rfl
  | succ fuel =>
    unfold fetchAuxT
    exact if_neg (fun hc => absurd hc.1 (Nat.not_lt.mpr h))

/-- When the loop ends short of the quota, either some fetched page gave an
empty batch, or the page counter ran to the ceiling. -/
theorem fetchAuxT_exhaust (pages : Nat → List RepoRow) (n : Nat) :
    ∀ fuel page_no seen out, 51 ≤ page_no + fuel →
      (fetchAuxT pages n fuel page_no seen out).1.length < n →
      (∃ p ∈ (fetchAuxT pages n fuel page_no seen out).2, pages p = []) ∨
      51 ≤ page_no + (fetchAuxT pages n fuel page_no seen out).2.length := by
  intro fuel
  induction fuel with
  | zero =>
    intro page_no seen out hf _
    right
    simpa using hf
  | succ fuel ih =>
    intro page_no seen out hf hlen
    unfold fetchAuxT at hlen ⊢
    by_cases hcond : out.length < n ∧ page_no ≤ 50
    · rw [if_pos hcond] at hlen ⊢
      by_cases hb : (pages page_no).isEmpty
      · rw [if_pos hb] at hlen ⊢
        left
        exact ⟨page_no, by simp, List.isEmpty_iff.mp hb⟩
      · rw [if_neg hb] at hlen ⊢
        have hf2 : 51 ≤ page_no + 1 + fuel := by omega
        rcases ih (page_no + 1) (dedupStep n seen out (pages page_no)).1
          (dedupStep n seen out (pages page_no)).2 hf2 hlen with hleft | hright
        · obtain ⟨p, hp, he⟩ := hleft
          exact Or.inl ⟨p, List.mem_cons_of_mem _ hp, he⟩
        · right
          simp only [List.length_cons]
          omega
    · rw [if_neg hcond] at hlen ⊢
      have hgt : ¬ page_no ≤ 50 := fun hb => hcond ⟨hlen, hb⟩
      right
      simp only [List.length_nil]
      omega

/-- Claim C7, amended: once the accumulation holds the quota the loop
performs no further page fetches, and the output is the accumulation
truncated to the first n records, so its length never exceeds n. Fewer than
n records come back only when some fetched page produced an empty batch
(source exhausted) or the full 50-page ceiling was fetched — the ceiling
case is not source exhaustion (see the counterexample). -/
theorem c7_quota_amended :
    (∀ pages n fuel page_no seen out, n ≤ out.length →
      fetchAuxT pages n fuel page_no seen out = (out, [])) ∧
    (∀ pages n, fetch_sorted pages n = (fetchAuxT pages n 51 1 [] []).1.take n) ∧
    (∀ pages n, (fetch_sorted pages n).length ≤ n) ∧
    (∀ pages n, (fetch_sorted pages n).length < n →
      (∃ p ∈ (fetchAuxT pages n 51 1 [] []).2, pages p = []) ∨
      50 ≤ (fetchAuxT pages n 51 1 [] []).2.length) := by
  refine ⟨fetchAuxT_at_quota, fun pages n => rfl, ?_, ?_⟩
  · intro pages n
    unfold fetch_sorted
    rw [List.length_take]
    exact min_le_left _ _
  · intro pages n hlt
    have h1 : (fetchAuxT pages n 51 1 [] []).1.length < n := by
      unfold fetch_sorted at hlt
      rw [List.length_take] at hlt
      by_cases hl : (fetchAuxT pages n 51 1 [] []).1.length < n
      · exact hl
      · rw [Nat.min_eq_left (Nat.not_lt.mp hl)] at hlt
        exact absurd hlt (lt_irrefl n)
    rcases fetchAuxT_exhaust pages n 51 1 [] [] (by omega) h1 with hleft | hright
    · exact Or.inl hleft
    · exact Or.inr (by omega)

/-- Claim C7, witness for the amended statement: from a state already at
quota 1 the loop fetches nothing; and with a source repeating one record,
quota 2 ends short with the full 50-page trace. -/
theorem c7_quota_witness :
    fetchAuxT constPages 1 51 7 [] [rowA] = ([rowA], []) ∧
    ((∃ p ∈ (fetchAuxT constPages 2 51 1 [] []).2, constPages p = []) ∨
      50 ≤ (fetchAuxT constPages 2 51 1 [] []).2.length) :=
  ⟨c7_quota_amended.1 constPages 1 51 7 [] [rowA] (by decide),
   c7_quota_amended.2.2.2 constPages 2 (by decide)⟩

/-- The seen-set only grows across the accumulation step. -/
theorem dedupStep_seen_mono (n : Nat) :
    ∀ batch seen out k, k ∈ seen → k ∈ (dedupStep n seen out batch).1 := by
  intro batch
  induction batch with
  | nil => intro seen out k hk; exact hk
  | cons r rest ih =>
    intro seen out k hk
    unfold dedupStep
    by_cases hs : rowKey r ∈ seen
    · rw [if_pos hs]
      exact ih seen out k hk
    · rw [if_neg hs]
      by_cases hq : n ≤ (out ++ [r]).length
      · rw [if_pos hq]
        exact List.mem_cons_of_mem _ hk
      · rw [if_neg hq]
        exact ih _ _ k (List.mem_cons_of_mem _ hk)

/-- When the quota leaves room for the whole batch, the step ends with every
batch key in the seen-set. -/
theorem dedupStep_all_seen (n : Nat) :
    ∀ batch seen out, out.length + batch.length ≤ n →
      ∀ r ∈ batch, rowKey r ∈ (dedupStep n seen out batch).1 := by
  intro batch
  induction batch with
  | nil =>
    intro seen out _ r hr
    simp at hr
  | cons b rest ih =>
    intro seen out h r hr
    have hlen : out.length + (rest.length + 1) ≤ n := by
      simpa using h
    unfold dedupStep
    by_cases hs : rowKey b ∈ seen
    · rw [if_pos hs]
      rcases List.mem_cons.mp hr with h1 | h2
      · exact dedupStep_seen_mono n rest seen out _ (h1 ▸ hs)
      · exact ih seen out (by omega) r h2
    · rw [if_neg hs]
      by_cases hq : n ≤ (out ++ [b]).length
      · rw [if_pos hq]
        rw [List.length_append, List.length_singleton] at hq
        have hre : rest = [] := List.length_eq_zero.mp (by omega)
        subst hre
        rcases List.mem_cons.mp hr with h1 | h2
        · rw [h1]
          exact List.mem_cons_self _ _
        · simp at h2
      · rw [if_neg hq]
        rcases List.mem_cons.mp hr with h1 | h2
        · rw [h1]
          exact dedupStep_seen_mono n rest _ _ _ (List.mem_cons_self _ _)
        · exact ih _ _ (by rw [List.length_append, List.length_singleton]; omega) r h2

/-- A batch whose keys are all already seen leaves the state unchanged. -/
theorem dedupStep_id (n : Nat) :
    ∀ batch seen out, (∀ r ∈ batch, rowKey r ∈ seen) →
      dedupStep n seen out batch = (seen, out) := by
  intro batch
  induction batch with
  | nil => intro seen out _; rfl
  | cons b rest ih =>
    intro seen out h
    unfold dedupStep
    rw [if_pos (h b (List.mem_cons_self b rest))]
    exact ih seen out (fun r hr => h r (List.mem_cons_of_mem b hr))

/-- The accumulation step preserves key distinctness of the accumulation
and keeps every accumulated key in the seen-set. -/
theorem dedupStep_nodup (n : Nat) :
    ∀ batch seen out, (out.map rowKey).Nodup →
      (∀ k ∈ out.map rowKey, k ∈ seen) →
      ((dedupStep n seen out batch).2.map rowKey).Nodup ∧
      ∀ k ∈ (dedupStep n seen out batch).2.map rowKey,
        k ∈ (dedupStep n seen out batch).1 := by
  intro batch
  induction batch with
  | nil => intro seen out h1 h2; exact ⟨h1, h2⟩
  | cons b rest ih =>
    intro seen out h1 h2
    unfold dedupStep
    by_cases hs : rowKey b ∈ seen
    · rw [if_pos hs]
      exact ih seen out h1 h2
    · rw [if_neg hs]
      have hnotin : rowKey b ∉ out.map rowKey := fun hm => hs (h2 _ hm)
      have h1b : ((out ++ [b]).map rowKey).Nodup := by
        rw [List.map_append]
        simp [List.nodup_append, h1, hnotin]
      have h2b : ∀ k ∈ (out ++ [b]).map rowKey, k ∈ rowKey b :: seen := by
        intro k hk
        rw [List.map_append] at hk
        rcases List.mem_append.mp hk with hk1 | hk2
        · exact List.mem_cons_of_mem _ (h2 k hk1)
        · simp only [List.map_cons, List.map_nil, List.mem_singleton] at hk2
          rw [hk2]
          exact List.mem_cons_self _ _
      by_cases hq : n ≤ (out ++ [b]).length
      · rw [if_pos hq]
        exact ⟨h1b, h2b⟩
      · rw [if_neg hq]
        exact ih _ _ h1b h2b

/-- The page loop's final accumulation carries pairwise distinct keys. -/
theorem fetchAuxT_nodup (pages : Nat → List RepoRow) (n : Nat) :
    ∀ fuel page_no seen out, (out.map rowKey).Nodup →
      (∀ k ∈ out.map rowKey, k ∈ seen) →
      ((fetchAuxT pages n fuel page_no seen out).1.map rowKey).Nodup := by
  intro fuel
  induction fuel with
  | zero => intro page_no seen out h1 _; exact h1
  | succ fuel ih =>
    intro page_no seen out h1 h2
    unfold fetchAuxT
    by_cases hcond : out.length < n ∧ page_no ≤ 50
    · rw [if_pos hcond]
      by_cases hb : (pages page_no).isEmpty
      · rw [if_pos hb]
        exact (dedupStep_nodup n (pages page_no) seen out h1 h2).1
      · rw [if_neg hb]
        exact ih (page_no + 1) _ _ (dedupStep_nodup n (pages page_no) seen out h1 h2).1
          (dedupStep_nodup n (pages page_no) seen out h1 h2).2
    · rw [if_neg hcond]
      exact h1

/-- Claim C8, amended: the accumulation step is idempotent whenever the
quota leaves room for the whole batch (running it again on the same batch
changes nothing, keys included) — at the quota boundary a second run can
accept further keys (see the counterexample) — and the accumulation never
holds two records with the same (owner, name) key, both before and after
the final truncation. -/
theorem c8_dedup_amended :
    (∀ n seen out batch, out.length + batch.length ≤ n →
      dedupStep n (dedupStep n seen out batch).1 (dedupStep n seen out batch).2 batch =
        dedupStep n seen out batch) ∧
    (∀ pages n, ((fetchAuxT pages n 51 1 [] []).1.map rowKey).Nodup ∧
      ((fetch_sorted pages n).map rowKey).Nodup) := by
  constructor
  · intro n seen out batch h
    exact (dedupStep_id n batch _ _ (dedupStep_all_seen n batch seen out h)).trans
      Prod.mk.eta
  · intro pages n
    have h1 := fetchAuxT_nodup pages n 51 1 [] [] (by simp) (by simp)
    refine ⟨h1, ?_⟩
    unfold fetch_sorted
    rw [List.map_take]
    exact List.Nodup.sublist (List.take_sublist n _) h1

/-- Claim C8, witness for the amended statement: with quota 5 and a
two-record batch the second run leaves the state untouched. -/
theorem c8_dedup_witness :
    dedupStep 5 (dedupStep 5 [] [] [rowA, rowB]).1 (dedupStep 5 [] [] [rowA, rowB]).2
      [rowA, rowB] = dedupStep 5 [] [] [rowA, rowB] :=
  c8_dedup_amended.1 5 [] [] [rowA, rowB] (by decide)

end Hub
